import Mathlib

/-!
Verification of the hybrid revocation-sync engine of the access-control-lock
service (NestJS/TypeScript).  The definitions below are a shallow embedding of:

* `src/infra/database/entities` (`RevokedSignatureEntity`, `revoked_signatures` table),
* `src/infra/database/revoked-signature.repository.ts` (store operations),
* `src/core/event-processor.service.ts` (`handleSignatureRevoked`),
* `src/core/blockchain-listener.service.ts` (`initialize`, `fetchLockInfo`,
  `startHybridSync`, `startRealtimeListening`, `performBatchSync`, `getStats`,
  `healthCheck`, `getStatus`).

The persistent store is modelled as the list of rows of the
`revoked_signatures` table; TypeScript `Date` values are modelled as abstract
`Nat` ticks; JavaScript numbers holding block heights are modelled as `Nat`
(they are non-negative throughout the source), except where the source can
produce a negative difference, which is modelled with `Int`.
-/

set_option linter.unusedVariables false

namespace VCEL

/-- Row of the `revoked_signatures` table (`RevokedSignatureEntity`).
The DB-generated `createdAt` column is not modelled (no claim mentions it). -/
structure RevokedSignatureEntity where
  id : String
  signatureHash : String
  blockNumber : Nat
  revokedAt : Nat
  deriving Repr, DecidableEq

/-- Contents of the `revoked_signatures` table, in insertion order. -/
abbrev Store := List RevokedSignatureEntity

/-- Number of rows whose `signatureHash` column equals `h`
(the `count({ where: { signatureHash } })` of the repository). -/
def countBySignatureHash (s : Store) (h : String) : Nat :=
  s.countP (fun r => r.signatureHash == h)

/-- `RevokedSignatureRepository.isSignatureHashRevoked`: `count > 0`. -/
def isSignatureHashRevoked (s : Store) (h : String) : Bool :=
  decide (0 < countBySignatureHash s h)

/-- `RevokedSignatureRepository.countAll`: row count of the table. -/
def countAll (s : Store) : Nat := s.length

/-- Database-level error raised by a failed row insert. -/
inductive DbError where
  | uniqueConstraintFailed
  | otherFailure (msg : String)
  deriving Repr, DecidableEq

/-- Insert of a row into `revoked_signatures`.  `id` is the primary column, so
inserting a row whose `id` is already present raises the SQLite
`UNIQUE constraint failed` error (the race case the event processor handles);
otherwise the row is appended. -/
def dbSave (s : Store) (r : RevokedSignatureEntity) : Except DbError Store :=
  if s.any (fun x => x.id == r.id) then .error .uniqueConstraintFailed
  else .ok (s ++ [r])

/-- Source tag of a revocation event (`'real-time' | 'batch'`). -/
inductive EventSource where
  | realTime
  | batch
  deriving Repr, DecidableEq

/-- `RevocationEventData` of `blockchain-listener.service.ts`. -/
structure RevocationEventData where
  signatureHash : String
  revokedBy : String
  transactionHash : String
  blockNumber : Nat
  logIndex : Nat
  timestamp : Nat
  source : EventSource
  deriving Repr, DecidableEq

/-- Row built by `handleSignatureRevoked` before saving: the signature hash is
used both as primary key and as the `signatureHash` column. -/
def newRecord (d : RevocationEventData) : RevokedSignatureEntity :=
  { id := d.signatureHash
    signatureHash := d.signatureHash
    blockNumber := d.blockNumber
    revokedAt := d.timestamp }

/-- `EventProcessorService.handleSignatureRevoked`, generalised to a pair of
store snapshots: `checkStore` is the table as seen by the initial
`isSignatureHashRevoked` existence check and `saveStore` the table as seen by
the later `save` (they differ exactly when a concurrent writer inserted
between the two awaits; the sequential run is `handleSignatureRevoked` below).
The body mirrors the source: early return when the hash already exists; save;
a `UNIQUE constraint failed` save error is treated as a benign early return;
any other error is re-thrown and then absorbed (logged) by the outer
`try/catch`, so the caller never receives an error. -/
def handleSignatureRevokedAt (checkStore saveStore : Store) (d : RevocationEventData) :
    Except DbError Store :=
  let inner : Except DbError Store :=
    if isSignatureHashRevoked checkStore d.signatureHash then
      .ok saveStore
    else
      match dbSave saveStore (newRecord d) with
      | .ok s => .ok s
      | .error .uniqueConstraintFailed => .ok saveStore
      | .error e => .error e
  match inner with
  | .ok s => .ok s
  | .error _ => .ok saveStore

/-- Sequential run of `handleSignatureRevoked`: check and save observe the
same store. -/
def handleSignatureRevoked (s : Store) (d : RevocationEventData) : Except DbError Store :=
  handleSignatureRevokedAt s s d

/-- Store contents after a (sequential) `handleSignatureRevoked` call. -/
def applyRevocation (s : Store) (d : RevocationEventData) : Store :=
  match handleSignatureRevoked s d with
  | .ok t => t
  | .error _ => s

/-- Lock information cached by the listener (`LockInfo`).  The source field
`exists` is a Lean keyword and is rendered `lockExists`. -/
structure LockInfo where
  lockId : String
  owner : String
  publicKey : String
  revokedCount : Nat
  lockExists : Bool
  deriving Repr, DecidableEq

/-- Event as returned by the contract's `SignatureRevoked` filter
(`queryFilter` result / live-listener callback arguments). -/
structure ChainEvent where
  signatureHash : String
  owner : String
  transactionHash : String
  blockNumber : Nat
  logIndex : Nat
  deriving Repr, DecidableEq

/-- Payload built by the real-time listener callback. -/
def mkRealtimeData (e : ChainEvent) (now : Nat) : RevocationEventData :=
  { signatureHash := e.signatureHash
    revokedBy := e.owner
    transactionHash := e.transactionHash
    blockNumber := e.blockNumber
    logIndex := e.logIndex
    timestamp := now
    source := .realTime }

/-- Payload built by the batch-sync loop. -/
def mkBatchData (e : ChainEvent) (now : Nat) : RevocationEventData :=
  { signatureHash := e.signatureHash
    revokedBy := e.owner
    transactionHash := e.transactionHash
    blockNumber := e.blockNumber
    logIndex := e.logIndex
    timestamp := now
    source := .batch }

/-- Mutable state of one `BlockchainListenerService` instance together with the
`revoked_signatures` table it writes through the event processor.  JS `Set`s
are lists without a meaningful order; `lastBatchSync` / `lastRealTimeUpdate`
ISO strings are abstract ticks. -/
structure EngineState where
  lockId : String
  lockInfo : Option LockInfo
  networkName : String
  contractAddress : String
  isListening : Bool
  batchSyncActive : Bool
  lastSyncedBlock : Nat
  currentBlock : Nat
  pendingUpdates : List String
  processingEvents : List String
  statsRealTimeUpdates : Nat
  statsBatchUpdates : Nat
  statsLastBatchSync : Option Nat
  statsLastRealTimeUpdate : Option Nat
  statsTotalRevocations : Nat
  store : Store
  deriving Repr, DecidableEq

/-- One invocation of the real-time `SignatureRevoked` callback registered by
`startRealtimeListening` (blockchain-listener.service.ts:340-402).  JavaScript
runs the dedup test-and-insert before the first `await`, so concurrent
deliveries are serialised at this granularity.  Returns the new state and
whether the event was processed (`false` = duplicate skipped, no store call). -/
def realtimeDeliver (st : EngineState) (e : ChainEvent) (now : Nat) :
    EngineState × Bool :=
  if st.processingEvents.contains e.signatureHash
      || st.pendingUpdates.contains e.signatureHash then
    (st, false)
  else
    ({ st with
        processingEvents := e.signatureHash :: st.processingEvents
        pendingUpdates := e.signatureHash :: st.pendingUpdates
        statsRealTimeUpdates := st.statsRealTimeUpdates + 1
        statsTotalRevocations := st.statsTotalRevocations + 1
        statsLastRealTimeUpdate := some now
        lockInfo := st.lockInfo.map (fun (li : LockInfo) => { li with revokedCount := li.revokedCount + 1 })
        store := applyRevocation st.store (mkRealtimeData e now) }, true)

/-- Deletion of an event key from `processingEvents` by the 5-second
`setTimeout` at blockchain-listener.service.ts:392-394. -/
def expireProcessing (st : EngineState) (key : String) : EngineState :=
  { st with processingEvents := st.processingEvents.filter (fun k => !(k == key)) }

/-- Resolution of the per-query block-range cap (`LOGS_MAX_RANGE` env var, with
the Alchemy-free-tier heuristic), blockchain-listener.service.ts:441-449. -/
def resolveLogsMaxRange (envLogsMaxRange : Option Nat) (rpcUrlHasAlchemy : Bool)
    (batchSize : Nat) : Nat :=
  let v := envLogsMaxRange.getD 0
  if v = 0 then (if rpcUrlHasAlchemy then 10 else batchSize) else v

/-- Inner chunking loop of `performBatchSync` (lines 458-518): splits
`[innerFrom, outerTo]` into query ranges of width at most `maxRange`.  The
source's `while` loop is rendered with explicit fuel; `outerTo + 1 - innerFrom`
suffices whenever `1 ≤ maxRange`. -/
def innerChunks : Nat → Nat → Nat → Nat → List (Nat × Nat)
  | 0, _, _, _ => []
  | fuel + 1, innerFrom, outerTo, maxRange =>
    if innerFrom ≤ outerTo then
      let innerTo := min (innerFrom + maxRange - 1) outerTo
      (innerFrom, innerTo) :: innerChunks fuel (innerTo + 1) outerTo maxRange
    else []

/-- Outer batching loop of `performBatchSync` (lines 451-521): walks
`[fromBlock, currentBlock]` in strides of `batchSize`, chunking each stride
with `innerChunks`. -/
def outerChunks : Nat → Nat → Nat → Nat → Nat → List (Nat × Nat)
  | 0, _, _, _, _ => []
  | fuel + 1, fromBlock, currentBlock, batchSize, maxRange =>
    if fromBlock ≤ currentBlock then
      let outerTo := min (fromBlock + batchSize - 1) currentBlock
      innerChunks (outerTo + 1 - fromBlock) fromBlock outerTo maxRange
        ++ outerChunks fuel (outerTo + 1) currentBlock batchSize maxRange
    else []

/-- Complete list of `(from, to)` ranges passed to `queryFilter` by one batch
sync over `[fromBlock, currentBlock]`. -/
def batchChunks (fromBlock currentBlock batchSize maxRange : Nat) : List (Nat × Nat) :=
  outerChunks (currentBlock + 1 - fromBlock) fromBlock currentBlock batchSize maxRange

/-- Per-event body of the batch loop (lines 481-512): an event whose key is in
`pendingUpdates` was already handled by the real-time path this cycle and is
skipped; otherwise the revocation is emitted to the event processor.  Returns
the updated store and the number of events emitted (`totalEvents`). -/
def applyScanEvents (pending : List String) (now : Nat) :
    Store → List ChainEvent → Store × Nat
  | s, [] => (s, 0)
  | s, e :: rest =>
    if pending.contains e.signatureHash then
      applyScanEvents pending now s rest
    else
      let r := applyScanEvents pending now (applyRevocation s (mkBatchData e now)) rest
      (r.1, r.2 + 1)

/-- Runs the chunk queries in order.  A failing `queryFilter` call is re-thrown
to the outer catch of `performBatchSync`; the error value carries the store as
already written (those emits are not rolled back). -/
def runChunks (query : Nat → Nat → Except String (List ChainEvent))
    (pending : List String) (now : Nat) :
    Store → List (Nat × Nat) → Except Store (Store × Nat)
  | s, [] => .ok (s, 0)
  | s, (a, b) :: rest =>
    match query a b with
    | .error _ => .error s
    | .ok events =>
      let r := applyScanEvents pending now s events
      match runChunks query pending now r.1 rest with
      | .error s2 => .error s2
      | .ok r2 => .ok (r2.1, r.2 + r2.2)

/-- `performBatchSync` (blockchain-listener.service.ts:420-557).
`currentBlock` is the chain height read once at the start (`toBlock`); `query`
is the contract's ranged `queryFilter`.  On success the checkpoint is set to
`currentBlock`, stats are bumped and `pendingUpdates` is cleared; the catch
branch leaves checkpoint, pending set and stats untouched.  The second
component reports whether the scan completed without error. -/
def performBatchSync (st : EngineState) (currentBlock : Nat)
    (query : Nat → Nat → Except String (List ChainEvent))
    (batchSize maxRange now : Nat) : EngineState × Bool :=
  match runChunks query st.pendingUpdates now st.store
      (batchChunks (st.lastSyncedBlock + 1) currentBlock batchSize maxRange) with
  | .error s => ({ st with store := s }, false)
  | .ok r =>
    ({ st with
        store := r.1
        lastSyncedBlock := currentBlock
        statsBatchUpdates := st.statsBatchUpdates + r.2
        statsTotalRevocations := st.statsTotalRevocations + r.2
        statsLastBatchSync := some now
        lockInfo := st.lockInfo.map (fun (li : LockInfo) => { li with revokedCount := li.revokedCount + r.2 })
        pendingUpdates := [] }, true)

/-- Range query of a chain whose full `SignatureRevoked` log is `events`:
returns exactly the events with block number in `[a, b]`, never failing. -/
def consistentQuery (events : List ChainEvent) (a b : Nat) :
    Except String (List ChainEvent) :=
  .ok (events.filter (fun e => a ≤ e.blockNumber && e.blockNumber ≤ b))

/-- Events observable while the engine runs: a real-time push delivery, one
full batch-sync pass (with the height, chain log, batch size, range cap and
clock it observes), or the timed removal of a key from `processingEvents`. -/
inductive SyncOp where
  | push (e : ChainEvent) (now : Nat)
  | scan (currentBlock : Nat) (events : List ChainEvent) (batchSize maxRange now : Nat)
  | expire (key : String)
  deriving Repr, DecidableEq

/-- Effect of one operation on the engine state. -/
def applyOp (st : EngineState) : SyncOp → EngineState
  | .push e now => (realtimeDeliver st e now).1
  | .scan currentBlock events batchSize maxRange now =>
    (performBatchSync st currentBlock (consistentQuery events) batchSize maxRange now).1
  | .expire key => expireProcessing st key

/-- Runs a sequence of interleaved operations. -/
def runOps (st : EngineState) (ops : List SyncOp) : EngineState :=
  ops.foldl applyOp st

/-- Steps of `startHybridSync` (blockchain-listener.service.ts:263-324) in the
order the source performs them: register the live `SignatureRevoked` listener
(line 285), schedule the initial batch sync (lines 289-292), install the
15-minute interval (lines 295-301), subscribe to new-block notifications
(lines 304-307). -/
inductive StartStep where
  | startRealtimeListening
  | scheduleInitialBatchSync
  | scheduleBatchSyncInterval
  | subscribeNewBlocks
  deriving Repr, DecidableEq

/-- Order in which `startHybridSync` performs its steps. -/
def startHybridSyncOrder : List StartStep :=
  [.startRealtimeListening, .scheduleInitialBatchSync,
   .scheduleBatchSyncInterval, .subscribeNewBlocks]

/-- Delivery of one fixed event through either path: `push` is the real-time
callback, `pull` the batch-loop body for that event (the checkpoint/stats
bookkeeping around the loop is not part of a single event's delivery). -/
inductive DeliveryOp where
  | push (now : Nat)
  | pull (now : Nat)
  deriving Repr, DecidableEq

/-- Pull-path delivery of `e` alone: skipped when the key is in
`pendingUpdates`, otherwise emitted to the event processor. -/
def batchDeliverEvent (st : EngineState) (e : ChainEvent) (now : Nat) : EngineState :=
  if st.pendingUpdates.contains e.signatureHash then st
  else { st with store := applyRevocation st.store (mkBatchData e now) }

/-- Applies one delivery of the fixed event `e`. -/
def applyDelivery (e : ChainEvent) (st : EngineState) : DeliveryOp → EngineState
  | .push now => (realtimeDeliver st e now).1
  | .pull now => batchDeliverEvent st e now

/-- Applies a sequence of deliveries of the same event `e`. -/
def runDeliveries (st : EngineState) (e : ChainEvent) (ds : List DeliveryOp) : EngineState :=
  ds.foldl (applyDelivery e) st

/-- Environment variables read by the listener (absent = `undefined`). -/
structure Env where
  mode : Option String
  lockId : Option String
  network : Option String
  sepoliaRpcUrl : Option String
  sepoliaContractAddress : Option String
  sepoliaStartBlock : Option Nat
  mainnetRpcUrl : Option String
  mainnetContractAddress : Option String
  mainnetStartBlock : Option Nat
  deriving Repr, DecidableEq

/-- `NetworkConfig` of the listener. -/
structure NetworkConfig where
  name : String
  rpcUrl : String
  contractAddress : String
  startBlock : Nat
  deriving Repr, DecidableEq

/-- `getNetworkConfig` (blockchain-listener.service.ts:120-139): `NETWORK`
defaults to `sepolia`; missing URL/address default to the empty string and
missing start blocks to `0`. -/
def getNetworkConfig (env : Env) : NetworkConfig :=
  if env.network.getD "sepolia" = "mainnet" then
    { name := "mainnet"
      rpcUrl := env.mainnetRpcUrl.getD ""
      contractAddress := env.mainnetContractAddress.getD ""
      startBlock := env.mainnetStartBlock.getD 0 }
  else
    { name := "sepolia"
      rpcUrl := env.sepoliaRpcUrl.getD ""
      contractAddress := env.sepoliaContractAddress.getD ""
      startBlock := env.sepoliaStartBlock.getD 0 }

/-- Upstream contract state visible to `initialize`: current height and the
`getLockInfo` view for each lock id. -/
structure Chain where
  blockNumber : Nat
  getLockInfo : String → LockInfo

/-- Startup failure surfaced by `initialize` (each constructor corresponds to
one `throw new Error(...)` site). -/
inductive InitError where
  | missingLockId
  | missingNetworkParams (networkName : String)
  | lockDoesNotExist (lockId : String)
  deriving Repr, DecidableEq

/-- Listener fields established by a successful `initialize`. -/
structure InitializedListener where
  lockId : String
  networkConfig : NetworkConfig
  currentBlock : Nat
  lastSyncedBlock : Nat
  lockInfo : LockInfo
  deriving Repr, DecidableEq

/-- `fetchLockInfo` (blockchain-listener.service.ts:215-244): reads the lock
info and fails when the lock does not exist on the contract. -/
def fetchLockInfo (chain : Chain) (lockId : String) : Except InitError LockInfo :=
  let info := chain.getLockInfo lockId
  let li : LockInfo := { lockId := lockId, owner := info.owner, publicKey := info.publicKey
                         revokedCount := info.revokedCount, lockExists := info.lockExists }
  if !li.lockExists then .error (.lockDoesNotExist lockId) else .ok li

/-- `initialize` (blockchain-listener.service.ts:144-210).  `LOCK_ID` absent or
empty is falsy and fatal; so is a missing RPC URL or contract address for the
selected network; `fetchLockInfo` failures propagate.  `persisted` is the
`lastSyncedBlock` returned by `SyncStateRepository.getOrCreate` (0 for a fresh
row); the working checkpoint starts at `max persisted startBlock`. -/
def initListener (env : Env) (chain : Chain) (persisted : Nat) :
    Except InitError InitializedListener :=
  let lockId := env.lockId.getD ""
  if lockId = "" then .error .missingLockId
  else
    let cfg := getNetworkConfig env
    if cfg.rpcUrl = "" ∨ cfg.contractAddress = "" then
      .error (.missingNetworkParams cfg.name)
    else
      match fetchLockInfo chain lockId with
      | .error e => .error e
      | .ok li =>
        .ok { lockId := lockId
              networkConfig := cfg
              currentBlock := chain.blockNumber
              lastSyncedBlock := max persisted cfg.startBlock
              lockInfo := li }

/-- `onModuleInit` (blockchain-listener.service.ts:106-111): in the API/IOT/NFC
modes it runs `initialize` and only then `startHybridSync`; an `initialize`
failure aborts module start-up, so no sync activity begins.  `.ok none` means
the service was not asked to start; `.ok (some ini)` means hybrid sync was
started from the initialized fields `ini`. -/
def onModuleInit (env : Env) (chain : Chain) (persisted : Nat) :
    Except InitError (Option InitializedListener) :=
  if env.mode = some "API" ∨ env.mode = some "IOT" ∨ env.mode = some "NFC" then
    match initListener env chain persisted with
    | .error e => .error e
    | .ok ini => .ok (some ini)
  else .ok none

/-- `HybridSyncStats` returned by `getStats`. -/
structure HybridSyncStats where
  realTimeUpdates : Nat
  batchUpdates : Nat
  lastBatchSync : Option Nat
  lastRealTimeUpdate : Option Nat
  lastSyncedBlock : Nat
  currentBlock : Nat
  blocksBehind : Int
  pendingUpdates : Nat
  totalRevocations : Nat
  deriving Repr, DecidableEq

/-- `getStats` (blockchain-listener.service.ts:620-632); `blocksBehind` is
`Math.max(0, currentBlock - lastSyncedBlock)` over JS numbers, i.e. a clamped
integer difference. -/
def getStats (st : EngineState) : HybridSyncStats :=
  { realTimeUpdates := st.statsRealTimeUpdates
    batchUpdates := st.statsBatchUpdates
    lastBatchSync := st.statsLastBatchSync
    lastRealTimeUpdate := st.statsLastRealTimeUpdate
    lastSyncedBlock := st.lastSyncedBlock
    currentBlock := st.currentBlock
    blocksBehind := max 0 ((st.currentBlock : Int) - (st.lastSyncedBlock : Int))
    pendingUpdates := st.pendingUpdates.length
    totalRevocations := st.statsTotalRevocations }

/-- Report returned by `healthCheck`; fields absent in the catch branch are
`none` there. -/
structure HealthReport where
  healthy : Bool
  lockId : String
  lockOwner : Option String
  publicKey : Option String
  currentBlock : Option Nat
  lastSyncedBlock : Option Nat
  blocksBehind : Option Int
  isListening : Bool
  batchSyncActive : Bool
  networkName : Option String
  contractAddress : Option String
  revokedCount : Option Nat
  errorMsg : Option String
  deriving Repr, DecidableEq

/-- `healthCheck` (blockchain-listener.service.ts:637-665).  The only fallible
step inside the `try` is the fresh `getBlockNumber` read, modelled by the
`blockRead` argument; the catch branch turns its failure into an explicit
unhealthy report instead of propagating, so the result is always `.ok`.  The
lag here is the raw (unclamped) difference, so it can be negative. -/
def healthCheck (st : EngineState) (blockRead : Except String Nat) :
    Except String HealthReport :=
  match blockRead with
  | .ok currentBlock =>
    let blocksBehind : Int := (currentBlock : Int) - (st.lastSyncedBlock : Int)
    .ok { healthy := decide (blocksBehind < 100)
          lockId := st.lockId
          lockOwner := some ((st.lockInfo.map (fun li => li.owner)).getD "unknown")
          publicKey := some ((st.lockInfo.map (fun li => li.publicKey)).getD "unknown")
          currentBlock := some currentBlock
          lastSyncedBlock := some st.lastSyncedBlock
          blocksBehind := some blocksBehind
          isListening := st.isListening
          batchSyncActive := st.batchSyncActive
          networkName := some st.networkName
          contractAddress := some st.contractAddress
          revokedCount := some ((st.lockInfo.map (fun li => li.revokedCount)).getD 0)
          errorMsg := none }
  | .error msg =>
    .ok { healthy := false
          lockId := st.lockId
          lockOwner := none
          publicKey := none
          currentBlock := none
          lastSyncedBlock := none
          blocksBehind := none
          isListening := st.isListening
          batchSyncActive := st.batchSyncActive
          networkName := none
          contractAddress := none
          revokedCount := none
          errorMsg := some msg }

/-- Status record returned by `getStatus`. -/
structure ListenerStatus where
  lockId : String
  lockOwner : String
  revokedCount : Nat
  isListening : Bool
  currentBlock : Nat
  lastSyncedBlock : Nat
  blocksBehind : Int
  batchSyncActive : Bool
  pendingUpdates : Nat
  deriving Repr, DecidableEq

/-- `getStatus` (blockchain-listener.service.ts:689-707); `blocksBehind` is
again the clamped difference `Math.max(0, currentBlock - lastSyncedBlock)`. -/
def getStatus (st : EngineState) : ListenerStatus :=
  { lockId := st.lockId
    lockOwner := (st.lockInfo.map (fun li => li.owner)).getD "unknown"
    revokedCount := (st.lockInfo.map (fun li => li.revokedCount)).getD 0
    isListening := st.isListening
    currentBlock := st.currentBlock
    lastSyncedBlock := st.lastSyncedBlock
    blocksBehind := max 0 ((st.currentBlock : Int) - (st.lastSyncedBlock : Int))
    batchSyncActive := st.batchSyncActive
    pendingUpdates := st.pendingUpdates.length }

/-! Store invariants and basic lemmas. -/

/-- Every row of `revoked_signatures` written by the service uses the
signature hash as its primary key (`id: signatureHash` in
`handleSignatureRevoked`). -/
def storeWF (s : Store) : Prop := ∀ r ∈ s, r.id = r.signatureHash

/-- At most one row per signature hash (uniqueness the primary key enforces,
given `storeWF`). -/
def uniqueByHash (s : Store) : Prop :=
  s.Pairwise (fun a b => a.signatureHash ≠ b.signatureHash)

theorem countBySignatureHash_append (s t : Store) (h : String) :
    countBySignatureHash (s ++ t) h = countBySignatureHash s h + countBySignatureHash t h := by
  simp [countBySignatureHash]

theorem isSignatureHashRevoked_iff (s : Store) (h : String) :
    isSignatureHashRevoked s h = true ↔ ∃ r ∈ s, r.signatureHash = h := by
  simp [isSignatureHashRevoked, countBySignatureHash, List.countP_pos_iff]

theorem countBySignatureHash_eq_zero (s : Store) (h : String)
    (hm : isSignatureHashRevoked s h = false) : countBySignatureHash s h = 0 := by
  by_contra hc
  have : 0 < countBySignatureHash s h := Nat.pos_of_ne_zero hc
  simp [isSignatureHashRevoked, this] at hm

theorem applyRevocation_cases (s : Store) (d : RevocationEventData) :
    applyRevocation s d = s ∨ applyRevocation s d = s ++ [newRecord d] := by
  unfold applyRevocation handleSignatureRevoked handleSignatureRevokedAt dbSave
  by_cases hrev : isSignatureHashRevoked s d.signatureHash <;>
    by_cases hany : s.any (fun x => x.id == (newRecord d).id) <;>
      simp [hrev, hany]

theorem applyRevocation_of_mem (s : Store) (d : RevocationEventData)
    (hrev : isSignatureHashRevoked s d.signatureHash = true) :
    applyRevocation s d = s := by
  unfold applyRevocation handleSignatureRevoked handleSignatureRevokedAt
  simp [hrev]

theorem applyRevocation_of_not_mem (s : Store) (d : RevocationEventData)
    (hwf : storeWF s) (hrev : isSignatureHashRevoked s d.signatureHash = false) :
    applyRevocation s d = s ++ [newRecord d] := by
  have hany : s.any (fun x => x.id == (newRecord d).id) = false := by
    rw [Bool.eq_false_iff]
    intro hc
    rcases List.any_eq_true.1 hc with ⟨x, hx, hid⟩
    have hid' : x.id = d.signatureHash := by simpa [newRecord] using hid
    have : isSignatureHashRevoked s d.signatureHash = true :=
      (isSignatureHashRevoked_iff s d.signatureHash).2 ⟨x, hx, (hwf x hx) ▸ hid'⟩
    simp [this] at hrev
  unfold applyRevocation handleSignatureRevoked handleSignatureRevokedAt dbSave
  simp [hrev, hany]

theorem count_applyRevocation_mono (s : Store) (d : RevocationEventData) (h : String) :
    countBySignatureHash s h ≤ countBySignatureHash (applyRevocation s d) h := by
  rcases applyRevocation_cases s d with hc | hc <;> rw [hc]
  rw [countBySignatureHash_append]; exact Nat.le_add_right _ _

theorem mem_applyRevocation_mono (s : Store) (d : RevocationEventData) (h : String)
    (hm : isSignatureHashRevoked s h = true) :
    isSignatureHashRevoked (applyRevocation s d) h = true := by
  have h1 : 0 < countBySignatureHash s h := by
    simpa [isSignatureHashRevoked] using hm
  have h2 := count_applyRevocation_mono s d h
  simp [isSignatureHashRevoked]
  omega

theorem mem_applyRevocation_self (s : Store) (d : RevocationEventData)
    (hwf : storeWF s) :
    isSignatureHashRevoked (applyRevocation s d) d.signatureHash = true := by
  by_cases hrev : isSignatureHashRevoked s d.signatureHash
  · rw [applyRevocation_of_mem s d hrev]; exact hrev
  · rw [applyRevocation_of_not_mem s d hwf (Bool.eq_false_iff.2 hrev)]
    refine (isSignatureHashRevoked_iff _ _).2 ⟨newRecord d, ?_, rfl⟩
    simp

theorem storeWF_applyRevocation (s : Store) (d : RevocationEventData)
    (hwf : storeWF s) : storeWF (applyRevocation s d) := by
  rcases applyRevocation_cases s d with hc | hc <;> rw [hc]
  · exact hwf
  · intro r hr
    rcases List.mem_append.1 hr with hr | hr
    · exact hwf r hr
    · simp at hr
      subst hr
      rfl

theorem uniqueByHash_applyRevocation (s : Store) (d : RevocationEventData)
    (hu : uniqueByHash s) : uniqueByHash (applyRevocation s d) := by
  by_cases hrev : isSignatureHashRevoked s d.signatureHash
  · rw [applyRevocation_of_mem s d hrev]; exact hu
  · rcases applyRevocation_cases s d with hc | hc <;> rw [hc]
    · exact hu
    · rw [uniqueByHash, List.pairwise_append]
      refine ⟨hu, List.pairwise_singleton _ _, ?_⟩
      intro a ha b hb
      simp at hb
      subst hb
      intro hcon
      have : isSignatureHashRevoked s d.signatureHash = true :=
        (isSignatureHashRevoked_iff _ _).2 ⟨a, ha, by simpa [newRecord] using hcon⟩
      exact hrev this

theorem uniqueByHash_count_le_one (s : Store) (h : String) (hu : uniqueByHash s) :
    countBySignatureHash s h ≤ 1 := by
  induction s with
  | nil => simp [countBySignatureHash]
  | cons a t ih =>
    rcases List.pairwise_cons.1 hu with ⟨ha, ht⟩
    by_cases hah : a.signatureHash = h
    · have hzero : countBySignatureHash t h = 0 := by
        rw [countBySignatureHash, List.countP_eq_zero]
        intro b hb
        simp only [beq_iff_eq]
        exact fun hbh => (ha b hb) (hah.trans hbh.symm)
      have hstep : countBySignatureHash (a :: t) h = countBySignatureHash t h + 1 := by
        simp [countBySignatureHash, List.countP_cons, hah]
      omega
    · have h1 := ih ht
      have hstep : countBySignatureHash (a :: t) h = countBySignatureHash t h := by
        simp [countBySignatureHash, List.countP_cons, hah]
      omega

theorem count_eq_one_of_mem_unique (s : Store) (h : String)
    (hu : uniqueByHash s) (hm : isSignatureHashRevoked s h = true) :
    countBySignatureHash s h = 1 := by
  have h1 : 0 < countBySignatureHash s h := by
    simpa [isSignatureHashRevoked] using hm
  have h2 := uniqueByHash_count_le_one s h hu
  omega

/-! Lemmas about the batch-scan store updates. -/

theorem applyScanEvents_storeWF (p : List String) (now : Nat) (evts : List ChainEvent) :
    ∀ s : Store, storeWF s → storeWF (applyScanEvents p now s evts).1 := by
  induction evts with
  | nil => intro s hwf; simpa [applyScanEvents] using hwf
  | cons e rest ih =>
    intro s hwf
    by_cases hc : p.contains e.signatureHash <;>
      simp only [applyScanEvents, hc, if_true, if_false]
    · exact ih s hwf
    · exact ih _ (storeWF_applyRevocation _ _ hwf)

theorem applyScanEvents_unique (p : List String) (now : Nat) (evts : List ChainEvent) :
    ∀ s : Store, uniqueByHash s → uniqueByHash (applyScanEvents p now s evts).1 := by
  induction evts with
  | nil => intro s hu; simpa [applyScanEvents] using hu
  | cons e rest ih =>
    intro s hu
    by_cases hc : p.contains e.signatureHash <;>
      simp only [applyScanEvents, hc, if_true, if_false]
    · exact ih s hu
    · exact ih _ (uniqueByHash_applyRevocation _ _ hu)

theorem applyScanEvents_mem_mono (p : List String) (now : Nat) (evts : List ChainEvent)
    (h : String) :
    ∀ s : Store, isSignatureHashRevoked s h = true →
      isSignatureHashRevoked (applyScanEvents p now s evts).1 h = true := by
  induction evts with
  | nil => intro s hm; simpa [applyScanEvents] using hm
  | cons e rest ih =>
    intro s hm
    by_cases hc : p.contains e.signatureHash <;>
      simp only [applyScanEvents, hc, if_true, if_false]
    · exact ih s hm
    · exact ih _ (mem_applyRevocation_mono _ _ _ hm)

theorem applyScanEvents_covers (p : List String) (now : Nat) (evts : List ChainEvent) :
    ∀ s : Store, storeWF s → (∀ k ∈ p, isSignatureHashRevoked s k = true) →
      ∀ e ∈ evts, isSignatureHashRevoked (applyScanEvents p now s evts).1 e.signatureHash = true := by
  induction evts with
  | nil => intro s _ _ e he; cases he
  | cons e0 rest ih =>
    intro s hwf hp e he
    by_cases hc : p.contains e0.signatureHash <;>
      simp only [applyScanEvents, hc, if_true, if_false]
    · rcases List.mem_cons.1 he with he | he
      · subst he
        exact applyScanEvents_mem_mono p now rest _ s
          (hp _ (by simpa using hc))
      · exact ih s hwf hp e he
    · rcases List.mem_cons.1 he with he | he
      · subst he
        exact applyScanEvents_mem_mono p now rest _ _
          (mem_applyRevocation_self s _ hwf)
      · refine ih _ (storeWF_applyRevocation _ _ hwf) ?_ e he
        intro k hk
        exact mem_applyRevocation_mono _ _ _ (hp k hk)

theorem runChunks_ok_of_consistent (events : List ChainEvent) (p : List String) (now : Nat) :
    ∀ (chunks : List (Nat × Nat)) (s : Store),
      ∃ r, runChunks (consistentQuery events) p now s chunks = .ok r := by
  intro chunks
  induction chunks with
  | nil => intro s; exact ⟨_, rfl⟩
  | cons c rest ih =>
    intro s
    rcases c with ⟨a, b⟩
    rcases ih (applyScanEvents p now s (events.filter (fun e => a ≤ e.blockNumber && e.blockNumber ≤ b))).1 with ⟨r, hr⟩
    refine ⟨(r.1, (applyScanEvents p now s (events.filter (fun e => a ≤ e.blockNumber && e.blockNumber ≤ b))).2 + r.2), ?_⟩
    simp only [runChunks, consistentQuery]
    rw [hr]

theorem runChunks_storeWF (query : Nat → Nat → Except String (List ChainEvent))
    (p : List String) (now : Nat) :
    ∀ (chunks : List (Nat × Nat)) (s : Store), storeWF s →
      (∀ s2, runChunks query p now s chunks = .error s2 → storeWF s2) ∧
      (∀ r, runChunks query p now s chunks = .ok r → storeWF r.1) := by
  intro chunks
  induction chunks with
  | nil =>
    intro s hwf
    constructor
    · intro s2 h; cases h
    · intro r h
      simp only [runChunks] at h
      cases h
      exact hwf
  | cons c rest ih =>
    intro s hwf
    rcases c with ⟨a, b⟩
    rcases hq : query a b with msg | events
    · constructor
      · intro s2 h
        simp only [runChunks, hq] at h
        cases h
        exact hwf
      · intro r h
        simp only [runChunks, hq] at h
        exact Except.noConfusion h
    · have hwf1 : storeWF (applyScanEvents p now s events).1 :=
        applyScanEvents_storeWF p now events s hwf
      rcases ih (applyScanEvents p now s events).1 hwf1 with ⟨herr, hok⟩
      constructor
      · intro s2 h
        simp only [runChunks, hq] at h
        rcases hrec : runChunks query p now (applyScanEvents p now s events).1 rest with s3 | r3 <;>
          rw [hrec] at h
        · cases h
          exact herr _ hrec
        · cases h
      · intro r h
        simp only [runChunks, hq] at h
        rcases hrec : runChunks query p now (applyScanEvents p now s events).1 rest with s3 | r3 <;>
          rw [hrec] at h
        · cases h
        · cases h
          exact hok r3 hrec

theorem runChunks_unique (query : Nat → Nat → Except String (List ChainEvent))
    (p : List String) (now : Nat) :
    ∀ (chunks : List (Nat × Nat)) (s : Store), uniqueByHash s →
      (∀ s2, runChunks query p now s chunks = .error s2 → uniqueByHash s2) ∧
      (∀ r, runChunks query p now s chunks = .ok r → uniqueByHash r.1) := by
  intro chunks
  induction chunks with
  | nil =>
    intro s hu
    constructor
    · intro s2 h; cases h
    · intro r h
      simp only [runChunks] at h
      cases h
      exact hu
  | cons c rest ih =>
    intro s hu
    rcases c with ⟨a, b⟩
    rcases hq : query a b with msg | events
    · constructor
      · intro s2 h
        simp only [runChunks, hq] at h
        cases h
        exact hu
      · intro r h
        simp only [runChunks, hq] at h
        exact Except.noConfusion h
    · have hu1 : uniqueByHash (applyScanEvents p now s events).1 :=
        applyScanEvents_unique p now events s hu
      rcases ih (applyScanEvents p now s events).1 hu1 with ⟨herr, hok⟩
      constructor
      · intro s2 h
        simp only [runChunks, hq] at h
        rcases hrec : runChunks query p now (applyScanEvents p now s events).1 rest with s3 | r3 <;>
          rw [hrec] at h
        · cases h
          exact herr _ hrec
        · cases h
      · intro r h
        simp only [runChunks, hq] at h
        rcases hrec : runChunks query p now (applyScanEvents p now s events).1 rest with s3 | r3 <;>
          rw [hrec] at h
        · cases h
        · cases h
          exact hok r3 hrec

theorem runChunks_mem_mono (query : Nat → Nat → Except String (List ChainEvent))
    (p : List String) (now : Nat) (h : String) :
    ∀ (chunks : List (Nat × Nat)) (s : Store), isSignatureHashRevoked s h = true →
      (∀ s2, runChunks query p now s chunks = .error s2 → isSignatureHashRevoked s2 h = true) ∧
      (∀ r, runChunks query p now s chunks = .ok r → isSignatureHashRevoked r.1 h = true) := by
  intro chunks
  induction chunks with
  | nil =>
    intro s hm
    constructor
    · intro s2 hh; cases hh
    · intro r hh
      simp only [runChunks] at hh
      cases hh
      exact hm
  | cons c rest ih =>
    intro s hm
    rcases c with ⟨a, b⟩
    rcases hq : query a b with msg | events
    · constructor
      · intro s2 hh
        simp only [runChunks, hq] at hh
        cases hh
        exact hm
      · intro r hh
        simp only [runChunks, hq] at hh
        exact Except.noConfusion hh
    · have hm1 : isSignatureHashRevoked (applyScanEvents p now s events).1 h = true :=
        applyScanEvents_mem_mono p now events h s hm
      rcases ih (applyScanEvents p now s events).1 hm1 with ⟨herr, hok⟩
      constructor
      · intro s2 hh
        simp only [runChunks, hq] at hh
        rcases hrec : runChunks query p now (applyScanEvents p now s events).1 rest with s3 | r3 <;>
          rw [hrec] at hh
        · cases hh
          exact herr _ hrec
        · cases hh
      · intro r hh
        simp only [runChunks, hq] at hh
        rcases hrec : runChunks query p now (applyScanEvents p now s events).1 rest with s3 | r3 <;>
          rw [hrec] at hh
        · cases hh
        · cases hh
          exact hok r3 hrec

/-! Chunking lemmas: the query ranges issued by one batch sync tile the
scanned interval exactly and respect the provider range cap. -/

/-- Block numbers covered by a list of query ranges, in query order. -/
def chunkBlocks (chunks : List (Nat × Nat)) : List Nat :=
  chunks.flatMap (fun c => List.range' c.1 (c.2 + 1 - c.1))

theorem innerChunks_bound (maxRange : Nat) (hmr : 1 ≤ maxRange) :
    ∀ (fuel innerFrom outerTo : Nat), ∀ c ∈ innerChunks fuel innerFrom outerTo maxRange,
      c.1 ≤ c.2 ∧ c.2 + 1 - c.1 ≤ maxRange := by
  intro fuel
  induction fuel with
  | zero => intro innerFrom outerTo c hc; cases hc
  | succ n ih =>
    intro innerFrom outerTo c hc
    by_cases hle : innerFrom ≤ outerTo
    · simp only [innerChunks, hle, if_true] at hc
      rcases List.mem_cons.1 hc with hc | hc
      · subst hc
        constructor <;> simp only [] <;> omega
      · exact ih _ _ c hc
    · simp only [innerChunks, hle, if_false] at hc
      cases hc

theorem range'_join (s t m n k : Nat) (ht : t = s + m) (hk : k = m + n) :
    List.range' s m ++ List.range' t n = List.range' s k := by
  subst ht
  subst hk
  rw [Nat.add_comm m n]
  exact List.range'_append_1 s m n

theorem innerChunks_cover (maxRange : Nat) (hmr : 1 ≤ maxRange) :
    ∀ (fuel innerFrom outerTo : Nat), outerTo + 1 ≤ innerFrom + fuel →
      chunkBlocks (innerChunks fuel innerFrom outerTo maxRange)
        = List.range' innerFrom (outerTo + 1 - innerFrom) := by
  intro fuel
  induction fuel with
  | zero =>
    intro innerFrom outerTo hfuel
    have : outerTo + 1 - innerFrom = 0 := by omega
    simp [innerChunks, chunkBlocks, this]
  | succ n ih =>
    intro innerFrom outerTo hfuel
    by_cases hle : innerFrom ≤ outerTo
    · have hmin : innerFrom ≤ min (innerFrom + maxRange - 1) outerTo := by omega
      have hih := ih (min (innerFrom + maxRange - 1) outerTo + 1) outerTo (by omega)
      simp only [chunkBlocks] at hih
      simp only [innerChunks, hle, if_true, chunkBlocks, List.flatMap_cons]
      rw [hih]
      exact range'_join _ _ _ _ _ (by omega) (by omega)
    · have : outerTo + 1 - innerFrom = 0 := by omega
      simp [innerChunks, hle, chunkBlocks, this]

theorem outerChunks_bound (batchSize maxRange : Nat) (hmr : 1 ≤ maxRange) :
    ∀ (fuel fromBlock currentBlock : Nat),
      ∀ c ∈ outerChunks fuel fromBlock currentBlock batchSize maxRange,
        c.1 ≤ c.2 ∧ c.2 + 1 - c.1 ≤ maxRange := by
  intro fuel
  induction fuel with
  | zero => intro fromBlock currentBlock c hc; cases hc
  | succ n ih =>
    intro fromBlock currentBlock c hc
    by_cases hle : fromBlock ≤ currentBlock
    · simp only [outerChunks, hle, if_true] at hc
      rcases List.mem_append.1 hc with hc | hc
      · exact innerChunks_bound maxRange hmr _ _ _ c hc
      · exact ih _ _ c hc
    · simp only [outerChunks, hle, if_false] at hc
      cases hc

theorem outerChunks_cover (batchSize maxRange : Nat) (hbs : 1 ≤ batchSize)
    (hmr : 1 ≤ maxRange) :
    ∀ (fuel fromBlock currentBlock : Nat), currentBlock + 1 ≤ fromBlock + fuel →
      chunkBlocks (outerChunks fuel fromBlock currentBlock batchSize maxRange)
        = List.range' fromBlock (currentBlock + 1 - fromBlock) := by
  intro fuel
  induction fuel with
  | zero =>
    intro fromBlock currentBlock hfuel
    have : currentBlock + 1 - fromBlock = 0 := by omega
    simp [outerChunks, chunkBlocks, this]
  | succ n ih =>
    intro fromBlock currentBlock hfuel
    by_cases hle : fromBlock ≤ currentBlock
    · have houter : fromBlock ≤ min (fromBlock + batchSize - 1) currentBlock := by omega
      have hinner := innerChunks_cover maxRange hmr
        (min (fromBlock + batchSize - 1) currentBlock + 1 - fromBlock)
        fromBlock (min (fromBlock + batchSize - 1) currentBlock) (by omega)
      have hih := ih (min (fromBlock + batchSize - 1) currentBlock + 1) currentBlock (by omega)
      simp only [chunkBlocks] at hinner hih
      simp only [outerChunks, hle, if_true, chunkBlocks, List.flatMap_append]
      rw [hinner, hih]
      exact range'_join _ _ _ _ _ (by omega) (by omega)
    · have : currentBlock + 1 - fromBlock = 0 := by omega
      simp [outerChunks, hle, chunkBlocks, this]

theorem batchChunks_bound (fromBlock currentBlock batchSize maxRange : Nat)
    (hmr : 1 ≤ maxRange) :
    ∀ c ∈ batchChunks fromBlock currentBlock batchSize maxRange,
      c.1 ≤ c.2 ∧ c.2 + 1 - c.1 ≤ maxRange :=
  outerChunks_bound batchSize maxRange hmr _ _ _

theorem batchChunks_cover (fromBlock currentBlock batchSize maxRange : Nat)
    (hbs : 1 ≤ batchSize) (hmr : 1 ≤ maxRange) :
    chunkBlocks (batchChunks fromBlock currentBlock batchSize maxRange)
      = List.range' fromBlock (currentBlock + 1 - fromBlock) :=
  outerChunks_cover batchSize maxRange hbs hmr _ _ _ (by omega)

theorem batchChunks_mem_chunk (fromBlock currentBlock batchSize maxRange bn : Nat)
    (hbs : 1 ≤ batchSize) (hmr : 1 ≤ maxRange)
    (hlo : fromBlock ≤ bn) (hhi : bn ≤ currentBlock) :
    ∃ c ∈ batchChunks fromBlock currentBlock batchSize maxRange,
      c.1 ≤ bn ∧ bn ≤ c.2 := by
  have hmem : bn ∈ List.range' fromBlock (currentBlock + 1 - fromBlock) := by
    rw [List.mem_range'_1]
    omega
  rw [← batchChunks_cover fromBlock currentBlock batchSize maxRange hbs hmr] at hmem
  rcases List.mem_flatMap.1 hmem with ⟨c, hc, hbn⟩
  rw [List.mem_range'_1] at hbn
  exact ⟨c, hc, by omega⟩

/-! Coverage of the full scan: an event whose block lies in some queried chunk
is in the store afterwards. -/

theorem runChunks_covers (events : List ChainEvent) (p : List String) (now : Nat) :
    ∀ (chunks : List (Nat × Nat)) (s : Store), storeWF s →
      (∀ k ∈ p, isSignatureHashRevoked s k = true) →
      ∀ r, runChunks (consistentQuery events) p now s chunks = .ok r →
      ∀ e ∈ events, (∃ c ∈ chunks, c.1 ≤ e.blockNumber ∧ e.blockNumber ≤ c.2) →
        isSignatureHashRevoked r.1 e.signatureHash = true := by
  intro chunks
  induction chunks with
  | nil =>
    intro s hwf hp r hrun e he hc
    rcases hc with ⟨c, hc, _⟩
    cases hc
  | cons c0 rest ih =>
    intro s hwf hp r hrun e he hc
    rcases c0 with ⟨a, b⟩
    simp only [runChunks, consistentQuery] at hrun
    rcases hrec : runChunks (consistentQuery events) p now
        (applyScanEvents p now s
          (events.filter (fun e => a ≤ e.blockNumber && e.blockNumber ≤ b))).1 rest
      with s3 | r3 <;> rw [hrec] at hrun
    · cases hrun
    · cases hrun
      rcases hc with ⟨c, hcmem, hlo, hhi⟩
      have hwf1 : storeWF (applyScanEvents p now s
          (events.filter (fun e => a ≤ e.blockNumber && e.blockNumber ≤ b))).1 :=
        applyScanEvents_storeWF p now _ s hwf
      have hp1 : ∀ k ∈ p, isSignatureHashRevoked (applyScanEvents p now s
          (events.filter (fun e => a ≤ e.blockNumber && e.blockNumber ≤ b))).1 k = true :=
        fun k hk => applyScanEvents_mem_mono p now _ k s (hp k hk)
      rcases List.mem_cons.1 hcmem with hcab | hcrest
      · have hef : e ∈ events.filter (fun e => a ≤ e.blockNumber && e.blockNumber ≤ b) := by
          rw [List.mem_filter]
          refine ⟨he, ?_⟩
          have ha : a ≤ e.blockNumber := by rw [hcab] at hlo; exact hlo
          have hb : e.blockNumber ≤ b := by rw [hcab] at hhi; exact hhi
          simp [ha, hb]
        have hm1 := applyScanEvents_covers p now _ s hwf hp e hef
        exact (runChunks_mem_mono (consistentQuery events) p now e.signatureHash rest _ hm1).2
          r3 hrec
      · exact ih _ hwf1 hp1 r3 hrec e he ⟨c, hcrest, hlo, hhi⟩

/-! Lemmas about `performBatchSync` at the engine level. -/

theorem performBatchSync_ok_fields (st : EngineState) (currentBlock : Nat)
    (query : Nat → Nat → Except String (List ChainEvent)) (batchSize maxRange now : Nat)
    (hok : (performBatchSync st currentBlock query batchSize maxRange now).2 = true) :
    (performBatchSync st currentBlock query batchSize maxRange now).1.lastSyncedBlock
        = currentBlock ∧
    (performBatchSync st currentBlock query batchSize maxRange now).1.pendingUpdates = [] := by
  rcases hrc : runChunks query st.pendingUpdates now st.store
      (batchChunks (st.lastSyncedBlock + 1) currentBlock batchSize maxRange) with s2 | r2
  · exfalso
    have hfalse : (performBatchSync st currentBlock query batchSize maxRange now).2 = false := by
      unfold performBatchSync
      rw [hrc]
    rw [hfalse] at hok
    simp at hok
  · constructor <;> (unfold performBatchSync; rw [hrc])

theorem performBatchSync_error_fields (st : EngineState) (currentBlock : Nat)
    (query : Nat → Nat → Except String (List ChainEvent)) (batchSize maxRange now : Nat)
    (herr : (performBatchSync st currentBlock query batchSize maxRange now).2 = false) :
    (performBatchSync st currentBlock query batchSize maxRange now).1.lastSyncedBlock
        = st.lastSyncedBlock ∧
    (performBatchSync st currentBlock query batchSize maxRange now).1.pendingUpdates
        = st.pendingUpdates ∧
    (performBatchSync st currentBlock query batchSize maxRange now).1.statsBatchUpdates
        = st.statsBatchUpdates := by
  rcases hrc : runChunks query st.pendingUpdates now st.store
      (batchChunks (st.lastSyncedBlock + 1) currentBlock batchSize maxRange) with s2 | r2
  · refine ⟨?_, ?_, ?_⟩ <;> (unfold performBatchSync; rw [hrc])
  · exfalso
    have htrue : (performBatchSync st currentBlock query batchSize maxRange now).2 = true := by
      unfold performBatchSync
      rw [hrc]
    rw [htrue] at herr
    simp at herr

theorem performBatchSync_consistent_ok (st : EngineState) (currentBlock : Nat)
    (events : List ChainEvent) (batchSize maxRange now : Nat) :
    (performBatchSync st currentBlock (consistentQuery events) batchSize maxRange now).2
      = true := by
  rcases runChunks_ok_of_consistent events st.pendingUpdates now
      (batchChunks (st.lastSyncedBlock + 1) currentBlock batchSize maxRange) st.store
    with ⟨r, hr⟩
  unfold performBatchSync
  rw [hr]

/-- Full-pass coverage: after a successful consistent scan, every chain event
whose block lies in `[lastSyncedBlock + 1, currentBlock]` is in the store. -/
theorem performBatchSync_covers (st : EngineState) (currentBlock : Nat)
    (events : List ChainEvent) (batchSize maxRange now : Nat)
    (hbs : 1 ≤ batchSize) (hmr : 1 ≤ maxRange)
    (hwf : storeWF st.store)
    (hp : ∀ k ∈ st.pendingUpdates, isSignatureHashRevoked st.store k = true) :
    ∀ e ∈ events, st.lastSyncedBlock + 1 ≤ e.blockNumber → e.blockNumber ≤ currentBlock →
      isSignatureHashRevoked
        (performBatchSync st currentBlock (consistentQuery events) batchSize maxRange now).1.store
        e.signatureHash = true := by
  intro e he hlo hhi
  rcases hrc : runChunks (consistentQuery events) st.pendingUpdates now st.store
      (batchChunks (st.lastSyncedBlock + 1) currentBlock batchSize maxRange) with s2 | r2
  · rcases runChunks_ok_of_consistent events st.pendingUpdates now
        (batchChunks (st.lastSyncedBlock + 1) currentBlock batchSize maxRange) st.store
      with ⟨r, hr⟩
    rw [hr] at hrc
    cases hrc
  · have hchunk := batchChunks_mem_chunk (st.lastSyncedBlock + 1) currentBlock
      batchSize maxRange e.blockNumber hbs hmr hlo hhi
    have hcov := runChunks_covers events st.pendingUpdates now _ st.store hwf hp r2 hrc e he hchunk
    unfold performBatchSync
    rw [hrc]
    exact hcov

/-! Engine invariant: the store is well-formed and duplicate-free, and every
key in the dedup sets is already durably recorded (in this model every store
write issued by a handler succeeds synchronously). -/

def EngineInv (st : EngineState) : Prop :=
  storeWF st.store ∧ uniqueByHash st.store ∧
  (∀ k ∈ st.pendingUpdates, isSignatureHashRevoked st.store k = true) ∧
  (∀ k ∈ st.processingEvents, isSignatureHashRevoked st.store k = true)

theorem realtimeDeliver_store (st : EngineState) (e : ChainEvent) (now : Nat) :
    (realtimeDeliver st e now).1.store = st.store ∨
    (realtimeDeliver st e now).1.store = applyRevocation st.store (mkRealtimeData e now) := by
  unfold realtimeDeliver
  split
  · left
    rfl
  · right
    rfl

theorem realtimeDeliver_mem_mono (st : EngineState) (e : ChainEvent) (now : Nat)
    (h : String) (hm : isSignatureHashRevoked st.store h = true) :
    isSignatureHashRevoked (realtimeDeliver st e now).1.store h = true := by
  rcases realtimeDeliver_store st e now with hs | hs <;> rw [hs]
  · exact hm
  · exact mem_applyRevocation_mono _ _ _ hm

theorem realtimeDeliver_inv (st : EngineState) (e : ChainEvent) (now : Nat)
    (hinv : EngineInv st) : EngineInv (realtimeDeliver st e now).1 := by
  rcases hinv with ⟨hwf, hu, hp, hproc⟩
  unfold realtimeDeliver
  split
  · exact ⟨hwf, hu, hp, hproc⟩
  · refine ⟨storeWF_applyRevocation _ _ hwf, uniqueByHash_applyRevocation _ _ hu, ?_, ?_⟩
    · intro k hk
      rcases List.mem_cons.1 hk with hk | hk
      · subst hk
        exact mem_applyRevocation_self _ _ hwf
      · exact mem_applyRevocation_mono _ _ _ (hp k hk)
    · intro k hk
      rcases List.mem_cons.1 hk with hk | hk
      · subst hk
        exact mem_applyRevocation_self _ _ hwf
      · exact mem_applyRevocation_mono _ _ _ (hproc k hk)

theorem realtimeDeliver_establishes (st : EngineState) (e : ChainEvent) (now : Nat)
    (hinv : EngineInv st) :
    isSignatureHashRevoked (realtimeDeliver st e now).1.store e.signatureHash = true := by
  rcases hinv with ⟨hwf, hu, hp, hproc⟩
  unfold realtimeDeliver
  split
  next hcond =>
    rcases (Bool.or_eq_true _ _) ▸ hcond with hc | hc
    · exact hproc _ (by simpa using hc)
    · exact hp _ (by simpa using hc)
  next hcond => exact mem_applyRevocation_self _ _ hwf

theorem performBatchSync_mem_mono (st : EngineState) (currentBlock : Nat)
    (query : Nat → Nat → Except String (List ChainEvent)) (batchSize maxRange now : Nat)
    (h : String) (hm : isSignatureHashRevoked st.store h = true) :
    isSignatureHashRevoked
      (performBatchSync st currentBlock query batchSize maxRange now).1.store h = true := by
  rcases hrc : runChunks query st.pendingUpdates now st.store
      (batchChunks (st.lastSyncedBlock + 1) currentBlock batchSize maxRange) with s2 | r2 <;>
    (unfold performBatchSync; rw [hrc])
  · exact (runChunks_mem_mono query st.pendingUpdates now h _ st.store hm).1 s2 hrc
  · exact (runChunks_mem_mono query st.pendingUpdates now h _ st.store hm).2 r2 hrc

theorem performBatchSync_inv (st : EngineState) (currentBlock : Nat)
    (query : Nat → Nat → Except String (List ChainEvent)) (batchSize maxRange now : Nat)
    (hinv : EngineInv st) :
    EngineInv (performBatchSync st currentBlock query batchSize maxRange now).1 := by
  rcases hinv with ⟨hwf, hu, hp, hproc⟩
  rcases hrc : runChunks query st.pendingUpdates now st.store
      (batchChunks (st.lastSyncedBlock + 1) currentBlock batchSize maxRange) with s2 | r2 <;>
    (unfold performBatchSync; rw [hrc])
  · refine ⟨(runChunks_storeWF query st.pendingUpdates now _ st.store hwf).1 s2 hrc,
      (runChunks_unique query st.pendingUpdates now _ st.store hu).1 s2 hrc, ?_, ?_⟩
    · intro k hk
      exact (runChunks_mem_mono query st.pendingUpdates now k _ st.store (hp k hk)).1 s2 hrc
    · intro k hk
      exact (runChunks_mem_mono query st.pendingUpdates now k _ st.store (hproc k hk)).1 s2 hrc
  · refine ⟨(runChunks_storeWF query st.pendingUpdates now _ st.store hwf).2 r2 hrc,
      (runChunks_unique query st.pendingUpdates now _ st.store hu).2 r2 hrc, ?_, ?_⟩
    · intro k hk
      cases hk
    · intro k hk
      exact (runChunks_mem_mono query st.pendingUpdates now k _ st.store (hproc k hk)).2 r2 hrc

theorem expireProcessing_inv (st : EngineState) (key : String)
    (hinv : EngineInv st) : EngineInv (expireProcessing st key) := by
  rcases hinv with ⟨hwf, hu, hp, hproc⟩
  refine ⟨hwf, hu, hp, ?_⟩
  intro k hk
  exact hproc k (List.mem_of_mem_filter hk)

theorem applyOp_inv (st : EngineState) (o : SyncOp) (hinv : EngineInv st) :
    EngineInv (applyOp st o) := by
  cases o with
  | push e now => exact realtimeDeliver_inv st e now hinv
  | scan currentBlock events batchSize maxRange now =>
    exact performBatchSync_inv st currentBlock (consistentQuery events)
      batchSize maxRange now hinv
  | expire key => exact expireProcessing_inv st key hinv

theorem applyOp_mem_mono (st : EngineState) (o : SyncOp) (h : String)
    (hm : isSignatureHashRevoked st.store h = true) :
    isSignatureHashRevoked (applyOp st o).store h = true := by
  cases o with
  | push e now => exact realtimeDeliver_mem_mono st e now h hm
  | scan currentBlock events batchSize maxRange now =>
    exact performBatchSync_mem_mono st currentBlock (consistentQuery events)
      batchSize maxRange now h hm
  | expire key => exact hm

theorem runOps_inv (ops : List SyncOp) :
    ∀ st : EngineState, EngineInv st → EngineInv (runOps st ops) := by
  induction ops with
  | nil => intro st hinv; exact hinv
  | cons o rest ih =>
    intro st hinv
    exact ih (applyOp st o) (applyOp_inv st o hinv)

theorem runOps_mem_mono (ops : List SyncOp) (h : String) :
    ∀ st : EngineState, isSignatureHashRevoked st.store h = true →
      isSignatureHashRevoked (runOps st ops).store h = true := by
  induction ops with
  | nil => intro st hm; exact hm
  | cons o rest ih =>
    intro st hm
    exact ih (applyOp st o) (applyOp_mem_mono st o h hm)

theorem runOps_append (st : EngineState) (ops1 ops2 : List SyncOp) :
    runOps st (ops1 ++ ops2) = runOps (runOps st ops1) ops2 :=
  List.foldl_append applyOp st ops1 ops2

/-! Lemmas about single-event deliveries (push vs pull) and counting. -/

theorem handleSignatureRevoked_ok (s : Store) (d : RevocationEventData) :
    handleSignatureRevoked s d = .ok (applyRevocation s d) := by
  unfold applyRevocation handleSignatureRevoked handleSignatureRevokedAt dbSave
  by_cases hrev : isSignatureHashRevoked s d.signatureHash <;>
    by_cases hany : s.any (fun x => x.id == (newRecord d).id) <;>
      simp [hrev, hany]

theorem batchDeliverEvent_store (st : EngineState) (e : ChainEvent) (now : Nat) :
    (batchDeliverEvent st e now).store = st.store ∨
    (batchDeliverEvent st e now).store = applyRevocation st.store (mkBatchData e now) := by
  unfold batchDeliverEvent
  split
  · left
    rfl
  · right
    rfl

theorem batchDeliverEvent_frame (st : EngineState) (e : ChainEvent) (now : Nat) :
    (batchDeliverEvent st e now).pendingUpdates = st.pendingUpdates ∧
    (batchDeliverEvent st e now).processingEvents = st.processingEvents := by
  unfold batchDeliverEvent
  split
  · exact ⟨rfl, rfl⟩
  · exact ⟨rfl, rfl⟩

theorem batchDeliverEvent_inv (st : EngineState) (e : ChainEvent) (now : Nat)
    (hinv : EngineInv st) : EngineInv (batchDeliverEvent st e now) := by
  rcases hinv with ⟨hwf, hu, hp, hproc⟩
  unfold batchDeliverEvent
  split
  · exact ⟨hwf, hu, hp, hproc⟩
  · exact ⟨storeWF_applyRevocation _ _ hwf, uniqueByHash_applyRevocation _ _ hu,
      fun k hk => mem_applyRevocation_mono _ _ _ (hp k hk),
      fun k hk => mem_applyRevocation_mono _ _ _ (hproc k hk)⟩

theorem batchDeliverEvent_establishes (st : EngineState) (e : ChainEvent) (now : Nat)
    (hinv : EngineInv st) :
    isSignatureHashRevoked (batchDeliverEvent st e now).store e.signatureHash = true := by
  rcases hinv with ⟨hwf, hu, hp, hproc⟩
  unfold batchDeliverEvent
  split
  next hcond => exact hp _ (by simpa using hcond)
  next hcond => exact mem_applyRevocation_self _ _ hwf

theorem applyDelivery_inv (e : ChainEvent) (st : EngineState) (dop : DeliveryOp)
    (hinv : EngineInv st) : EngineInv (applyDelivery e st dop) := by
  cases dop with
  | push now => exact realtimeDeliver_inv st e now hinv
  | pull now => exact batchDeliverEvent_inv st e now hinv

theorem applyDelivery_mem_mono (e : ChainEvent) (st : EngineState) (dop : DeliveryOp)
    (h : String) (hm : isSignatureHashRevoked st.store h = true) :
    isSignatureHashRevoked (applyDelivery e st dop).store h = true := by
  cases dop with
  | push now => exact realtimeDeliver_mem_mono st e now h hm
  | pull now =>
    show isSignatureHashRevoked (batchDeliverEvent st e now).store h = true
    rcases batchDeliverEvent_store st e now with hs | hs <;> rw [hs]
    · exact hm
    · exact mem_applyRevocation_mono _ _ _ hm

theorem applyDelivery_establishes (e : ChainEvent) (st : EngineState) (dop : DeliveryOp)
    (hinv : EngineInv st) :
    isSignatureHashRevoked (applyDelivery e st dop).store e.signatureHash = true := by
  cases dop with
  | push now => exact realtimeDeliver_establishes st e now hinv
  | pull now => exact batchDeliverEvent_establishes st e now hinv

theorem runDeliveries_inv (e : ChainEvent) (ds : List DeliveryOp) :
    ∀ st : EngineState, EngineInv st → EngineInv (runDeliveries st e ds) := by
  induction ds with
  | nil => intro st hinv; exact hinv
  | cons d rest ih =>
    intro st hinv
    exact ih (applyDelivery e st d) (applyDelivery_inv e st d hinv)

theorem runDeliveries_mem_mono (e : ChainEvent) (ds : List DeliveryOp) (h : String) :
    ∀ st : EngineState, isSignatureHashRevoked st.store h = true →
      isSignatureHashRevoked (runDeliveries st e ds).store h = true := by
  induction ds with
  | nil => intro st hm; exact hm
  | cons d rest ih =>
    intro st hm
    exact ih (applyDelivery e st d) (applyDelivery_mem_mono e st d h hm)

theorem length_le_countAll_of_all_mem (s : Store) (hashes : List String)
    (hnd : hashes.Nodup) (hall : ∀ h ∈ hashes, isSignatureHashRevoked s h = true) :
    hashes.length ≤ countAll s := by
  have hsub : hashes ⊆ s.map (fun r => r.signatureHash) := by
    intro h hh
    rcases (isSignatureHashRevoked_iff s h).1 (hall h hh) with ⟨r, hr, hrh⟩
    exact List.mem_map.2 ⟨r, hr, hrh⟩
  have hle := (List.subperm_of_subset hnd hsub).length_le
  simpa [countAll] using hle

/-! Concrete fixtures used by the witness theorems. -/

/-- Concrete lock info for witnesses. -/
def testLockInfo : LockInfo :=
  { lockId := "lock-1", owner := "0xabc", publicKey := "0x04deadbeef",
    revokedCount := 0, lockExists := true }

/-- Concrete engine state: freshly initialised, checkpoint at block 100,
empty store and dedup sets. -/
def testState : EngineState :=
  { lockId := "lock-1"
    lockInfo := some testLockInfo
    networkName := "sepolia"
    contractAddress := "0xc0ffee"
    isListening := true
    batchSyncActive := true
    lastSyncedBlock := 100
    currentBlock := 100
    pendingUpdates := []
    processingEvents := []
    statsRealTimeUpdates := 0
    statsBatchUpdates := 0
    statsLastBatchSync := none
    statsLastRealTimeUpdate := none
    statsTotalRevocations := 0
    store := [] }

/-- Concrete revocation event at block 120. -/
def testEvent : ChainEvent :=
  { signatureHash := "0xdeadsig", owner := "0xabc", transactionHash := "0xt1",
    blockNumber := 120, logIndex := 0 }

/-- Concrete upstream contract view. -/
def testChain : Chain :=
  { blockNumber := 150, getLockInfo := fun _ => testLockInfo }

/-- Environment with mode API but no LOCK_ID configured. -/
def testEnvMissingLock : Env :=
  { mode := some "API", lockId := none, network := none
    sepoliaRpcUrl := some "wss://rpc.example", sepoliaContractAddress := some "0xc0ffee"
    sepoliaStartBlock := some 1000, mainnetRpcUrl := none
    mainnetContractAddress := none, mainnetStartBlock := none }

/-! Claim theorems. -/

/-- C5: every historical query issued by the batch scan covers a sub-range at
most `maxRange` blocks wide (the provider hard cap), and the queried
sub-ranges, in order, tile `[fromBlock, currentBlock]` exactly — no gaps and
no overlaps (their concatenated block lists equal the interval's block
list). -/
theorem c5_range_chunking (fromBlock currentBlock batchSize maxRange : Nat)
    (hbs : 1 ≤ batchSize) (hmr : 1 ≤ maxRange) :
    (∀ c ∈ batchChunks fromBlock currentBlock batchSize maxRange,
        c.1 ≤ c.2 ∧ c.2 + 1 - c.1 ≤ maxRange) ∧
    chunkBlocks (batchChunks fromBlock currentBlock batchSize maxRange)
      = List.range' fromBlock (currentBlock + 1 - fromBlock) :=
  ⟨batchChunks_bound fromBlock currentBlock batchSize maxRange hmr,
   batchChunks_cover fromBlock currentBlock batchSize maxRange hbs hmr⟩

/-- C5 witness: outer range of 2500 blocks (1001..3500), provider cap 10. -/
theorem c5_range_chunking_witness :
    (∀ c ∈ batchChunks 1001 3500 2500 10, c.1 ≤ c.2 ∧ c.2 + 1 - c.1 ≤ 10) ∧
    chunkBlocks (batchChunks 1001 3500 2500 10) = List.range' 1001 2500 :=
  c5_range_chunking 1001 3500 2500 10 (by decide) (by decide)

/-- C7: when the save into the revocation store hits the uniqueness-constraint
violation (the row's primary key is already present, the race between the
exists-check and the insert), `handleSignatureRevoked` treats it as a benign
no-op: it returns successfully with the store unchanged, surfacing no error to
the engine. -/
theorem c7_unique_violation_benign (checkStore saveStore : Store)
    (d : RevocationEventData)
    (hdup : saveStore.any (fun x => x.id == d.signatureHash) = true) :
    handleSignatureRevokedAt checkStore saveStore d = .ok saveStore := by
  unfold handleSignatureRevokedAt dbSave
  have hdup' : saveStore.any (fun x => x.id == (newRecord d).id) = true := by
    simpa [newRecord] using hdup
  by_cases hrev : isSignatureHashRevoked checkStore d.signatureHash <;>
    simp [hrev, hdup']

/-- C7 witness: the exists-check saw an empty table, a concurrent writer then
inserted the row, and the save's unique violation is absorbed as success. -/
theorem c7_unique_violation_benign_witness :
    handleSignatureRevokedAt []
      [{ id := "0xdeadsig", signatureHash := "0xdeadsig", blockNumber := 120, revokedAt := 3 }]
      { signatureHash := "0xdeadsig", revokedBy := "0xabc", transactionHash := "0xt1",
        blockNumber := 120, logIndex := 0, timestamp := 4, source := .realTime }
      = .ok [{ id := "0xdeadsig", signatureHash := "0xdeadsig", blockNumber := 120, revokedAt := 3 }] :=
  c7_unique_violation_benign _ _ _ (by decide)

/-- C9: the health query never throws: for every internal state and every
outcome of the block-height read it returns `.ok` with a report; on a
successful read the healthy flag is set exactly when the (possibly negative)
lag `currentBlock - lastSyncedBlock` is below the 100-block threshold, and on
a failed read the report is unhealthy and carries the error detail. -/
theorem c9_health_never_throws (st : EngineState) :
    (∀ blockRead : Except String Nat, ∃ h, healthCheck st blockRead = .ok h) ∧
    (∀ cb : Nat, ∃ h, healthCheck st (.ok cb) = .ok h ∧
        h.healthy = decide ((cb : Int) - (st.lastSyncedBlock : Int) < 100) ∧
        h.currentBlock = some cb ∧
        h.lastSyncedBlock = some st.lastSyncedBlock ∧
        h.blocksBehind = some ((cb : Int) - (st.lastSyncedBlock : Int)) ∧
        h.isListening = st.isListening ∧
        h.batchSyncActive = st.batchSyncActive ∧
        h.errorMsg = none) ∧
    (∀ msg : String, ∃ h, healthCheck st (.error msg) = .ok h ∧
        h.healthy = false ∧ h.errorMsg = some msg ∧
        h.isListening = st.isListening ∧ h.batchSyncActive = st.batchSyncActive) := by
  refine ⟨?_, ?_, ?_⟩
  · intro blockRead
    cases blockRead with
    | ok cb => exact ⟨_, rfl⟩
    | error msg => exact ⟨_, rfl⟩
  · intro cb
    exact ⟨_, rfl, rfl, rfl, rfl, rfl, rfl, rfl, rfl⟩
  · intro msg
    exact ⟨_, rfl, rfl, rfl, rfl, rfl⟩

/-- C10: `blocksBehind` as reported by both the stats query and the status
query equals `max 0 (currentBlock - lastSyncedBlock)` and is therefore never
negative, for every internal state, including states where the checkpoint
exceeds the last observed block height. -/
theorem c10_blocks_behind_clamped (st : EngineState) :
    (getStats st).blocksBehind
        = max 0 ((st.currentBlock : Int) - (st.lastSyncedBlock : Int)) ∧
    (getStatus st).blocksBehind
        = max 0 ((st.currentBlock : Int) - (st.lastSyncedBlock : Int)) ∧
    0 ≤ (getStats st).blocksBehind ∧
    0 ≤ (getStatus st).blocksBehind :=
  ⟨rfl, rfl, le_max_left _ _, le_max_left _ _⟩

/-- C2 counterexample to the claim as stated: two consecutive batch syncs,
both completing without error over an empty event log, where the second
observes a chain height (90) below the first (100).  The code still runs the
checkpoint assignment, so `lastSyncedBlock` decreases from 100 to 90 across a
sequence of successful scans. -/
theorem c2_checkpoint_counterexample :
    (performBatchSync testState 100 (consistentQuery []) 1000 10 0).2 = true ∧
    (performBatchSync (performBatchSync testState 100 (consistentQuery []) 1000 10 0).1 90
        (consistentQuery []) 1000 10 1).2 = true ∧
    (performBatchSync testState 100 (consistentQuery []) 1000 10 0).1.lastSyncedBlock = 100 ∧
    (performBatchSync (performBatchSync testState 100 (consistentQuery []) 1000 10 0).1 90
        (consistentQuery []) 1000 10 1).1.lastSyncedBlock = 90 := by
  decide

/-- C2 (amended): a scan that completes without error sets `lastSyncedBlock`
to exactly the chain height captured at its start (the scan's `toBlock`); a
scan that throws mid-range leaves `lastSyncedBlock` (and the pending set and
batch counters) at their pre-scan values; consequently, across successful
scans the checkpoint never decreases **provided** each scan's observed chain
height is at least the pre-scan checkpoint (as with a non-regressing height
oracle) — without that proviso the original claim fails, see the
counterexample. -/
theorem c2_checkpoint_monotonicity (st : EngineState) (currentBlock : Nat)
    (query : Nat → Nat → Except String (List ChainEvent)) (batchSize maxRange now : Nat) :
    ((performBatchSync st currentBlock query batchSize maxRange now).2 = true →
      (performBatchSync st currentBlock query batchSize maxRange now).1.lastSyncedBlock
        = currentBlock) ∧
    ((performBatchSync st currentBlock query batchSize maxRange now).2 = true →
      st.lastSyncedBlock ≤ currentBlock →
      st.lastSyncedBlock
        ≤ (performBatchSync st currentBlock query batchSize maxRange now).1.lastSyncedBlock) ∧
    ((performBatchSync st currentBlock query batchSize maxRange now).2 = false →
      (performBatchSync st currentBlock query batchSize maxRange now).1.lastSyncedBlock
          = st.lastSyncedBlock ∧
      (performBatchSync st currentBlock query batchSize maxRange now).1.pendingUpdates
          = st.pendingUpdates ∧
      (performBatchSync st currentBlock query batchSize maxRange now).1.statsBatchUpdates
          = st.statsBatchUpdates) := by
  refine ⟨?_, ?_, ?_⟩
  · intro hok
    exact (performBatchSync_ok_fields st currentBlock query batchSize maxRange now hok).1
  · intro hok hle
    rw [(performBatchSync_ok_fields st currentBlock query batchSize maxRange now hok).1]
    exact hle
  · intro herr
    exact performBatchSync_error_fields st currentBlock query batchSize maxRange now herr

/-- C2 witness: a successful scan to height 150 moves the checkpoint from 100
to exactly 150, and a scan whose query throws leaves it at 100. -/
theorem c2_checkpoint_monotonicity_witness :
    (performBatchSync testState 150 (consistentQuery []) 1000 10 0).1.lastSyncedBlock = 150 ∧
    (performBatchSync testState 150 (fun _ _ => Except.error "rate limited") 1000 10 0).1.lastSyncedBlock
        = testState.lastSyncedBlock :=
  ⟨(c2_checkpoint_monotonicity testState 150 (consistentQuery []) 1000 10 0).1 (by decide),
   ((c2_checkpoint_monotonicity testState 150 (fun _ _ => Except.error "rate limited") 1000 10 0).2.2
      (by decide)).1⟩

/-- Duplicate push delivery is skipped without any state change. -/
theorem realtimeDeliver_skip (st : EngineState) (e : ChainEvent) (now : Nat)
    (h : st.processingEvents.contains e.signatureHash = true ∨
         st.pendingUpdates.contains e.signatureHash = true) :
    realtimeDeliver st e now = (st, false) := by
  have hcond : (st.processingEvents.contains e.signatureHash
      || st.pendingUpdates.contains e.signatureHash) = true := by
    rcases h with h | h
    · rw [h, Bool.true_or]
    · rw [h, Bool.or_true]
  unfold realtimeDeliver
  rw [if_pos hcond]

/-- C6: two invocations of the push-event handler with the same event key
(concurrent JS invocations are serialised at `await` boundaries, and the
dedup test-and-insert runs before the handler's first asynchronous operation):
the first processes the event and issues the store apply; the second returns
having changed nothing — no store call — because the key is already in the
in-memory dedup window. -/
theorem c6_duplicate_push_single_write (st : EngineState) (e : ChainEvent) (now1 now2 : Nat)
    (hproc : st.processingEvents.contains e.signatureHash = false)
    (hpend : st.pendingUpdates.contains e.signatureHash = false) :
    (realtimeDeliver st e now1).2 = true ∧
    (realtimeDeliver st e now1).1.store
        = applyRevocation st.store (mkRealtimeData e now1) ∧
    (realtimeDeliver (realtimeDeliver st e now1).1 e now2).2 = false ∧
    (realtimeDeliver (realtimeDeliver st e now1).1 e now2).1
        = (realtimeDeliver st e now1).1 := by
  have hfirst : realtimeDeliver st e now1
      = ({ st with
            processingEvents := e.signatureHash :: st.processingEvents
            pendingUpdates := e.signatureHash :: st.pendingUpdates
            statsRealTimeUpdates := st.statsRealTimeUpdates + 1
            statsTotalRevocations := st.statsTotalRevocations + 1
            statsLastRealTimeUpdate := some now1
            lockInfo := st.lockInfo.map
              (fun (li : LockInfo) => { li with revokedCount := li.revokedCount + 1 })
            store := applyRevocation st.store (mkRealtimeData e now1) }, true) := by
    unfold realtimeDeliver
    rw [hproc, hpend]
    rfl
  have hsecond : (realtimeDeliver st e now1).1.processingEvents.contains e.signatureHash
      = true := by
    rw [hfirst]
    simp
  refine ⟨by rw [hfirst], by rw [hfirst], ?_, ?_⟩ <;>
    rw [realtimeDeliver_skip (realtimeDeliver st e now1).1 e now2 (Or.inl hsecond)]

/-- C6 witness: a fresh state, the same event pushed twice. -/
theorem c6_duplicate_push_single_write_witness :
    (realtimeDeliver testState testEvent 5).2 = true ∧
    (realtimeDeliver testState testEvent 5).1.store
        = applyRevocation testState.store (mkRealtimeData testEvent 5) ∧
    (realtimeDeliver (realtimeDeliver testState testEvent 5).1 testEvent 6).2 = false ∧
    (realtimeDeliver (realtimeDeliver testState testEvent 5).1 testEvent 6).1
        = (realtimeDeliver testState testEvent 5).1 :=
  c6_duplicate_push_single_write testState testEvent 5 6 (by decide) (by decide)

/-- C8: engine start-up fails with an initialization error — the module init
propagates it instead of retrying, so no sync activity begins — whenever the
lock id is absent (or empty), the selected network's RPC URL or contract
address is missing, or the watched lock does not exist on the contract. -/
theorem c8_startup_fatal (env : Env) (chain : Chain) (persisted : Nat)
    (hmode : env.mode = some "API" ∨ env.mode = some "IOT" ∨ env.mode = some "NFC")
    (hbad : env.lockId.getD "" = "" ∨ (getNetworkConfig env).rpcUrl = "" ∨
        (getNetworkConfig env).contractAddress = "" ∨
        (chain.getLockInfo (env.lockId.getD "")).lockExists = false) :
    ∃ err, initListener env chain persisted = .error err ∧
      onModuleInit env chain persisted = .error err ∧
      ∀ ini, onModuleInit env chain persisted ≠ .ok ini := by
  have hinit : ∃ err, initListener env chain persisted = .error err := by
    unfold initListener
    by_cases h1 : env.lockId.getD "" = ""
    · exact ⟨.missingLockId, by rw [if_pos h1]⟩
    · rw [if_neg h1]
      by_cases h2 : (getNetworkConfig env).rpcUrl = "" ∨ (getNetworkConfig env).contractAddress = ""
      · exact ⟨_, by rw [if_pos h2]⟩
      · rw [if_neg h2]
        have h3 : (chain.getLockInfo (env.lockId.getD "")).lockExists = false := by
          rcases hbad with hbad | hbad | hbad | hbad
          · exact absurd hbad h1
          · exact absurd (Or.inl hbad) h2
          · exact absurd (Or.inr hbad) h2
          · exact hbad
        refine ⟨.lockDoesNotExist (env.lockId.getD ""), ?_⟩
        unfold fetchLockInfo
        rw [if_pos]
        simp [h3]
  rcases hinit with ⟨err, herr⟩
  refine ⟨err, herr, ?_, ?_⟩
  · unfold onModuleInit
    rw [if_pos hmode, herr]
  · intro ini hcon
    unfold onModuleInit at hcon
    rw [if_pos hmode, herr] at hcon
    cases hcon

/-- C8 witness: mode API with LOCK_ID unset fails initialization and starts
no sync. -/
theorem c8_startup_fatal_witness :
    ∃ err, initListener testEnvMissingLock testChain 0 = .error err ∧
      onModuleInit testEnvMissingLock testChain 0 = .error err ∧
      ∀ ini, onModuleInit testEnvMissingLock testChain 0 ≠ .ok ini :=
  c8_startup_fatal testEnvMissingLock testChain 0 (Or.inl rfl) (Or.inl rfl)

/-- Fresh state satisfies the engine invariant. -/
theorem testState_inv : EngineInv testState := by
  refine ⟨?_, ?_, ?_, ?_⟩
  · intro r hr
    simp [testState] at hr
  · exact List.Pairwise.nil
  · intro k hk
    simp [testState] at hk
  · intro k hk
    simp [testState] at hk

/-- C3: delivering the same revocation event any positive number of times,
through any interleaving of push-path and pull-path deliveries, leaves exactly
one row with that signature hash in the revocation store; and no
`handleSignatureRevoked` call raises an error to its caller (it always
returns `.ok`). -/
theorem c3_idempotent_apply (st : EngineState) (e : ChainEvent) (ds : List DeliveryOp)
    (hinv : EngineInv st) (hne : ds ≠ []) :
    countBySignatureHash (runDeliveries st e ds).store e.signatureHash = 1 ∧
    (∀ (s : Store) (d : RevocationEventData),
        handleSignatureRevoked s d = .ok (applyRevocation s d)) := by
  refine ⟨?_, fun s d => handleSignatureRevoked_ok s d⟩
  rcases ds with _ | ⟨d0, rest⟩
  · exact absurd rfl hne
  · have h1 : EngineInv (applyDelivery e st d0) := applyDelivery_inv e st d0 hinv
    have hm1 : isSignatureHashRevoked (applyDelivery e st d0).store e.signatureHash = true :=
      applyDelivery_establishes e st d0 hinv
    have hmem : isSignatureHashRevoked
        (runDeliveries (applyDelivery e st d0) e rest).store e.signatureHash = true :=
      runDeliveries_mem_mono e rest e.signatureHash _ hm1
    have hfin : EngineInv (runDeliveries (applyDelivery e st d0) e rest) :=
      runDeliveries_inv e rest _ h1
    exact count_eq_one_of_mem_unique _ _ hfin.2.1 hmem

/-- C3 witness: the same event delivered push, then pull, then push again. -/
theorem c3_idempotent_apply_witness :
    countBySignatureHash
      (runDeliveries testState testEvent
        [DeliveryOp.push 5, DeliveryOp.pull 6, DeliveryOp.push 7]).store
      testEvent.signatureHash = 1 ∧
    (∀ (s : Store) (d : RevocationEventData),
        handleSignatureRevoked s d = .ok (applyRevocation s d)) :=
  c3_idempotent_apply testState testEvent
    [DeliveryOp.push 5, DeliveryOp.pull 6, DeliveryOp.push 7]
    testState_inv (by decide)

/-- C4: if every hash in a duplicate-free list `hashes` of `N` event hashes is
carried by some chain event retrievable by range queries inside
`[lastSyncedBlock + 1, currentHeight]`, then after one full batch-scan pass
(which completes without error against a consistent chain) every one of those
events is present in the revocation store, so the store holds at least `N`
rows (the push path may already have contributed some). -/
theorem c4_eventual_consistency (st : EngineState) (currentBlock : Nat)
    (events : List ChainEvent) (hashes : List String) (batchSize maxRange now : Nat)
    (hbs : 1 ≤ batchSize) (hmr : 1 ≤ maxRange) (hinv : EngineInv st)
    (hnd : hashes.Nodup)
    (hav : ∀ h ∈ hashes, ∃ e ∈ events, e.signatureHash = h ∧
        st.lastSyncedBlock + 1 ≤ e.blockNumber ∧ e.blockNumber ≤ currentBlock) :
    (performBatchSync st currentBlock (consistentQuery events) batchSize maxRange now).2
        = true ∧
    (∀ h ∈ hashes, isSignatureHashRevoked
        (performBatchSync st currentBlock (consistentQuery events) batchSize maxRange now).1.store
        h = true) ∧
    hashes.length ≤ countAll
        (performBatchSync st currentBlock (consistentQuery events) batchSize maxRange now).1.store := by
  have hmemall : ∀ h ∈ hashes, isSignatureHashRevoked
      (performBatchSync st currentBlock (consistentQuery events) batchSize maxRange now).1.store
      h = true := by
    intro h hh
    rcases hav h hh with ⟨e, he, hhash, hlo, hhi⟩
    have hcov := performBatchSync_covers st currentBlock events batchSize maxRange now
      hbs hmr hinv.1 hinv.2.2.1 e he hlo hhi
    rw [hhash] at hcov
    exact hcov
  exact ⟨performBatchSync_consistent_ok st currentBlock events batchSize maxRange now,
    hmemall, length_le_countAll_of_all_mem _ hashes hnd hmemall⟩

/-- C4 witness: one retrievable event at block 120, scanned from checkpoint
100 up to height 150. -/
theorem c4_eventual_consistency_witness :
    (performBatchSync testState 150 (consistentQuery [testEvent]) 1000 10 0).2 = true ∧
    (∀ h ∈ ["0xdeadsig"], isSignatureHashRevoked
        (performBatchSync testState 150 (consistentQuery [testEvent]) 1000 10 0).1.store
        h = true) ∧
    ([("0xdeadsig" : String)]).length ≤ countAll
        (performBatchSync testState 150 (consistentQuery [testEvent]) 1000 10 0).1.store :=
  c4_eventual_consistency testState 150 [testEvent] ["0xdeadsig"] 1000 10 0
    (by decide) (by decide) testState_inv (by decide)
    (by
      intro h hh
      simp only [List.mem_singleton] at hh
      subst hh
      exact ⟨testEvent, by simp, rfl, by decide, by decide⟩)

/-- C1: in `startHybridSync` the live `SignatureRevoked` subscription is
registered strictly before the initial historical scan is scheduled; and for
any interleaving of operations after the subscription is live — arbitrary
push deliveries, batch scans (including the initial backfill) and dedup-window
expiries — an event that is delivered by the push path, or returned by a
backfill query covering its block, or both, ends up recorded in the
revocation store exactly once: not zero times and not twice. -/
theorem c1_no_gap_exactly_once (st : EngineState) (ops1 ops2 : List SyncOp) (op : SyncOp)
    (e : ChainEvent) (hinv : EngineInv st)
    (hdeliver : (∃ now, op = SyncOp.push e now) ∨
        (∃ cb events batchSize maxRange now,
          op = SyncOp.scan cb events batchSize maxRange now ∧ e ∈ events ∧
          1 ≤ batchSize ∧ 1 ≤ maxRange ∧
          (runOps st ops1).lastSyncedBlock + 1 ≤ e.blockNumber ∧ e.blockNumber ≤ cb)) :
    startHybridSyncOrder.findIdx (fun s => s == StartStep.startRealtimeListening)
        < startHybridSyncOrder.findIdx (fun s => s == StartStep.scheduleInitialBatchSync) ∧
    countBySignatureHash (runOps st (ops1 ++ op :: ops2)).store e.signatureHash = 1 := by
  refine ⟨by decide, ?_⟩
  have hinv1 : EngineInv (runOps st ops1) := runOps_inv ops1 st hinv
  have hmem2 : isSignatureHashRevoked
      (applyOp (runOps st ops1) op).store e.signatureHash = true := by
    rcases hdeliver with ⟨now, rfl⟩ | ⟨cb, events, batchSize, maxRange, now, rfl, he, hbs, hmr, hlo, hhi⟩
    · exact realtimeDeliver_establishes _ e now hinv1
    · exact performBatchSync_covers (runOps st ops1) cb events batchSize maxRange now
        hbs hmr hinv1.1 hinv1.2.2.1 e he hlo hhi
  have hinv2 : EngineInv (applyOp (runOps st ops1) op) := applyOp_inv _ op hinv1
  have hrw : runOps st (ops1 ++ op :: ops2)
      = runOps (applyOp (runOps st ops1) op) ops2 := by
    rw [runOps_append]
    rfl
  rw [hrw]
  exact count_eq_one_of_mem_unique _ _ (runOps_inv ops2 _ hinv2).2.1
    (runOps_mem_mono ops2 _ _ hmem2)

/-- C1 witness: the event arrives by push right after subscription, and the
initial backfill's query over `[101, 150]` returns it again; it is recorded
exactly once. -/
theorem c1_no_gap_exactly_once_witness :
    startHybridSyncOrder.findIdx (fun s => s == StartStep.startRealtimeListening)
        < startHybridSyncOrder.findIdx (fun s => s == StartStep.scheduleInitialBatchSync) ∧
    countBySignatureHash
      (runOps testState
        [SyncOp.push testEvent 5, SyncOp.scan 150 [testEvent] 1000 10 6]).store
      testEvent.signatureHash = 1 :=
  c1_no_gap_exactly_once testState [] [SyncOp.scan 150 [testEvent] 1000 10 6]
    (SyncOp.push testEvent 5) testEvent testState_inv (Or.inl ⟨5, rfl⟩)

end VCEL
